import Mathlib

/-!
Verification of the multithreaded left-rectangle integrator
`src/lessons/integrate/dlintegrate.c`.

Shallow embedding conventions:
* `farg_t` (C `double`) is modelled as `ℚ` (exact arithmetic; the spec's
  claims about interval arithmetic are stated "within floating-point
  rounding", and every concrete value used below is exactly representable).
* `long long` is modelled as `ℤ`; the C conversion from `long double`
  to `long long` (truncation toward zero) is `ll_trunc`.
* `sscanf("%Lg%c", ...)`'s observable outcome is abstracted as a
  `ScanResult` record (number of matched items, parsed value, finiteness);
  `ld_conv` is then a direct translation of the C `ld_conv`.
* Threads are modelled functionally: each worker is the pure function
  `integrate_worker`; the shared result array written by the workers is
  `runResults`, parameterised by the order in which workers complete
  (each completion writes the worker's slot, as `*(args->resptr) = res`).
* `dlopen`/`dlsym` are modelled as an `Option (ℚ → ℚ)` loader argument to
  `runMain` (`none` = loader failure, reported as `PE_DLERR`).
-/

namespace Dlintegrate

/-- Type `farg_t` of dlintegrate.c line 75 (`typedef double farg_t`), modelled as
exact rationals. -/
abbrev farg_t := ℚ

/-- The `enum error` of dlintegrate.c lines 89-100.  `__PE_LAST` is omitted:
it is an array-size sentinel, never an error value. -/
inductive Error
  | PE_OK
  | PE_NOARGS
  | PE_WRONGARG
  | PE_NENARGS
  | PE_TMARGS
  | PE_CVGERR
  | PE_MALLOC
  | PE_THREAD
  | PE_DLERR
  deriving DecidableEq

/-- Constant `EXIT_SUCCESS` of stdlib.h. -/
def EXIT_SUCCESS : ℤ := 0

/-- Constant `EX_USAGE` of sysexits.h: command line usage error. -/
def EX_USAGE : ℤ := 64

/-- Constant `EX_DATAERR` of sysexits.h: data format error. -/
def EX_DATAERR : ℤ := 65

/-- Constant `EX_SOFTWARE` of sysexits.h: internal software error. -/
def EX_SOFTWARE : ℤ := 70

/-- Constant `EX_OSERR` of sysexits.h: internal OS error. -/
def EX_OSERR : ℤ := 71

/-- Table `error_retcodes` of dlintegrate.c lines 122-133: process exit code for
each error kind. -/
def error_retcodes : Error → ℤ
  | Error.PE_OK => EXIT_SUCCESS
  | Error.PE_NOARGS => EX_USAGE
  | Error.PE_WRONGARG => EX_USAGE
  | Error.PE_NENARGS => EX_USAGE
  | Error.PE_TMARGS => EX_USAGE
  | Error.PE_CVGERR => EX_DATAERR
  | Error.PE_MALLOC => EX_OSERR
  | Error.PE_THREAD => EX_OSERR
  | Error.PE_DLERR => EX_SOFTWARE

/-- Constant `EPSILON` of dlintegrate.c line 78: `static const farg_t EPSILON =
FLT_EPSILON;`.  `FLT_EPSILON` is the machine epsilon of `float`, exactly
`2⁻²³`, even though `farg_t` is `double`. -/
def EPSILON : farg_t := 1 / 2 ^ 23

/-- Constant `DBL_EPSILON` of float.h, exactly `2⁻⁵²`: the machine epsilon of
`double`, the type the computation uses.  Claim C3 asserts the rejection
threshold is this value; the code uses `EPSILON = FLT_EPSILON` instead. -/
def DBL_EPSILON : farg_t := 1 / 2 ^ 52

/-- The `struct defaults` of dlintegrate.c lines 141-144. -/
structure Defaults where
  nsteps : ℤ
  nthreads : ℤ

/-- Value `DEFAULTS` of dlintegrate.c lines 146-149: `.nsteps = 10e6` (the double
literal `10e6` is exactly 10 000 000), `.nthreads = 1`. -/
def DEFAULTS : Defaults := { nsteps := 10000000, nthreads := 1 }

/-- Observable outcome of `sscanf(str, "%Lg%c", dstptr, &etc)` on one
argument string: `matched` is the number of items assigned (2 when a
trailing character follows the number, 1 for a clean number, 0 or EOF
when nothing parses — any value other than 1 makes `ld_conv` fail),
`value` the long double read, and `finite` the result of `isfinite` on
it (false for inf/nan input). -/
structure ScanResult where
  matched : ℕ
  value : farg_t
  finite : Bool

/-- Function `ld_conv` of dlintegrate.c lines 234-238:
`(sscanf(str, "%Lg%c", dstptr, &etc) == 1) && (isfinite(*dstptr))`. -/
def ld_conv (s : ScanResult) : Bool := (s.matched == 1) && s.finite

/-- The C conversion `(long long)x` of a `long double`: truncation toward
zero. -/
def ll_trunc (q : farg_t) : ℤ := if q < 0 then ⌈q⌉ else ⌊q⌋

/-- The `case 't'` option handler of `parse_args` (lines 273-278):
reject when `ld_conv` fails or the truncated value is negative, else
store the truncated value into `args.nthreads`. -/
def handle_t (s : ScanResult) : Except Error ℤ :=
  if ld_conv s = false ∨ ll_trunc s.value < 0 then Except.error Error.PE_WRONGARG
  else Except.ok (ll_trunc s.value)

/-- The `case 'n'` option handler of `parse_args` (lines 279-284):
reject when `ld_conv` fails or the truncated value is non-positive, else
store the truncated value into `args.nsteps`. -/
def handle_n (s : ScanResult) : Except Error ℤ :=
  if ld_conv s = false ∨ ll_trunc s.value ≤ 0 then Except.error Error.PE_WRONGARG
  else Except.ok (ll_trunc s.value)

/-- The `struct args` of dlintegrate.c lines 153-160 (the inherited
`struct defaults` fields are flattened in, exactly as `-fms-extensions`
does).  The `ishelp` flag is not modelled: `-h` prints usage and exits
inside the option loop, before an `args` value is ever returned. -/
structure Args where
  nsteps : ℤ
  nthreads : ℤ
  start : farg_t
  end_ : farg_t
  funcname : Option String
  isverbose : Bool

/-- The command line as seen after `getopt` has recognised the options:
the `-t` and `-n` option strings (as `ScanResult`s of their values),
the `-F` argument, the positional arguments (as `ScanResult`s, since
they also go through `ld_conv`), the `-v` flag, and the value
`get_nprocs()` would report. -/
structure CmdInput where
  tOpt : Option ScanResult
  nOpt : Option ScanResult
  funcname : Option String
  positionals : List ScanResult
  verbose : Bool
  nprocs : ℤ

/-- Function `parse_args` of dlintegrate.c lines 247-338, after `getopt` option
recognition: handle `-t` and `-n` (first malformed option reports
`PE_WRONGARG`), then check `-F` presence and positional count
(lines 305-309), convert the two positionals (lines 313-316), apply the
`EPSILON` integrability check (lines 318-321), and resolve
`nthreads == 0` to `get_nprocs()` (line 328). -/
def parse_args (inp : CmdInput) : Except Error Args :=
  match (match inp.tOpt with
         | none => Except.ok DEFAULTS.nthreads
         | some s => handle_t s) with
  | Except.error e => Except.error e
  | Except.ok nthreads0 =>
    match (match inp.nOpt with
           | none => Except.ok DEFAULTS.nsteps
           | some s => handle_n s) with
    | Except.error e => Except.error e
    | Except.ok nsteps =>
      if inp.funcname = none ∨ inp.positionals.length < 2 then
        Except.error Error.PE_NENARGS
      else if 2 < inp.positionals.length then
        Except.error Error.PE_TMARGS
      else
        match inp.positionals with
        | s1 :: s2 :: _ =>
          if ld_conv s1 = false ∨ ld_conv s2 = false then
            Except.error Error.PE_WRONGARG
          else if s2.value - s1.value ≤ EPSILON then
            Except.error Error.PE_CVGERR
          else
            Except.ok { nsteps := nsteps,
                        nthreads := if nthreads0 = 0 then inp.nprocs else nthreads0,
                        start := s1.value,
                        end_ := s2.value,
                        funcname := inp.funcname,
                        isverbose := inp.verbose }
        | _ => Except.error Error.PE_NENARGS

/-- The `struct thread_args` of dlintegrate.c lines 341-347, without the two
pointers: `funcptr` is passed separately as a function argument, and
`resptr` is modelled by the worker's slot index in `runResults`. -/
structure ThreadArgs where
  start : farg_t
  end_ : farg_t
  step : farg_t

/-- The summation loop of `integrate_worker` (dlintegrate.c lines 360-364):
`while (start < end) { res += func(start) * step; start += step; }`.
The conjunct `0 < st` totalises the recursion: with `st ≤ 0` and
`s < e` the C loop never terminates, and in every reachable call
`st = interval / nsteps > 0`. -/
def worker_loop (f : ℚ → ℚ) (s e st : ℚ) : ℚ :=
  if h : s < e ∧ 0 < st then f s * st + worker_loop f (s + st) e st else 0
termination_by (⌈(e - s) / st⌉).toNat
decreasing_by
  have hst : st ≠ 0 := ne_of_gt h.2
  have h3 : (e - (s + st)) / st = (e - s) / st - 1 := by
    field_simp
    ring
  have h5 : 0 < ⌈(e - s) / st⌉ := Int.ceil_pos.mpr (div_pos (by linarith [h.1]) h.2)
  rw [h3, Int.ceil_sub_one]
  omega

/-- Function `integrate_worker` of dlintegrate.c lines 349-368: run the summation
loop on the partition passed in `thread_args` and return the single
scalar written to `*(args->resptr)`. -/
def integrate_worker (f : ℚ → ℚ) (p : ThreadArgs) : ℚ :=
  worker_loop f p.start p.end_ p.step

/-- Following the spec's words (claim C4): the sample sequence
`x_i = sub-start, sub-start+step, sub-start+2*step, …` taken while
`x_i < sub-end`, each point obtained by repeated addition of `step` to
the previous point.  Kept separate from `worker_loop` so that the code's
loop can be proved to compute `Σ f(x_i) * step` over exactly this
sequence. -/
def specSamplePoints (s e st : ℚ) : List ℚ :=
  if h : s < e ∧ 0 < st then s :: specSamplePoints (s + st) e st else []
termination_by (⌈(e - s) / st⌉).toNat
decreasing_by
  have hst : st ≠ 0 := ne_of_gt h.2
  have h3 : (e - (s + st)) / st = (e - s) / st - 1 := by
    field_simp
    ring
  have h5 : 0 < ⌈(e - s) / st⌉ := Int.ceil_pos.mpr (div_pos (by linarith [h.1]) h.2)
  rw [h3, Int.ceil_sub_one]
  omega

/-- Number of iterations of the `integrate_worker` loop — equivalently the
number of `func` evaluations a worker performs on partition
`(s, e, st)`.  Same recursion structure as `worker_loop`. -/
def nEvals (s e st : ℚ) : ℕ :=
  if h : s < e ∧ 0 < st then nEvals (s + st) e st + 1 else 0
termination_by (⌈(e - s) / st⌉).toNat
decreasing_by
  have hst : st ≠ 0 := ne_of_gt h.2
  have h3 : (e - (s + st)) / st = (e - s) / st - 1 := by
    field_simp
    ring
  have h5 : 0 < ⌈(e - s) / st⌉ := Int.ceil_pos.mpr (div_pos (by linarith [h.1]) h.2)
  rw [h3, Int.ceil_sub_one]
  omega

/-- The partition-building loop of `main` (dlintegrate.c lines 424-439):
`interval = end - start`, `step = interval / nsteps`,
`part = interval / nthreads`, and thread `i` receives
`{ .start = part * i, .end = part * (i + 1), .step = step }`.
Note the source sets `.start = part * i`, not `args.start + part * i`. -/
def partitions (a : Args) : List ThreadArgs :=
  let interval : farg_t := a.end_ - a.start
  let step : farg_t := interval / (a.nsteps : farg_t)
  let part : farg_t := interval / (a.nthreads : farg_t)
  (List.range a.nthreads.toNat).map fun (i : ℕ) =>
    { start := part * (i : farg_t), end_ := part * ((i : farg_t) + 1), step := step }

/-- A validated `Args` value with the given interval, step count and
thread count (funcname and verbosity irrelevant to partitioning). -/
def mkArgs (s e : farg_t) (S T : ℕ) : Args :=
  { nsteps := (S : ℤ), nthreads := (T : ℤ), start := s, end_ := e,
    funcname := none, isverbose := false }

/-- Total number of `func` evaluations across all workers of one run. -/
def totalEvals (a : Args) : ℕ :=
  ((partitions a).map fun p => nEvals p.start p.end_ p.step).sum

/-- The shared `results` array (dlintegrate.c lines 419-420, zero-filled
by `memset`) after the workers listed in `order` have completed, in that
completion order: each completing worker `i` performs the single write
`*(args->resptr) = res` into its own slot `results[i]`. -/
def runResults (f : ℚ → ℚ) (parts : List ThreadArgs) (order : List ℕ) : ℕ → ℚ :=
  order.foldl
    (fun res i => Function.update res i (integrate_worker f (parts.getD i ⟨0, 0, 0⟩)))
    (fun _ => 0)

/-- The aggregation loop of `main` (dlintegrate.c lines 473-476): sum the
`T` result slots in partition-index order `0, 1, …, T-1`. -/
def aggregate (T : ℕ) (res : ℕ → ℚ) : ℚ :=
  (List.range T).foldl (fun sum i => sum + res i) 0

/-- The value `main` prints: aggregate of the results array after every
worker has completed (the join barrier), for completion order `order`. -/
def finalSum (f : ℚ → ℚ) (parts : List ThreadArgs) (order : List ℕ) : ℚ :=
  aggregate parts.length (runResults f parts order)

/-- A full dispatch of one validated request: partition, run all workers
(index order is as good as any: see the order-independence theorem),
aggregate. -/
def dispatch (f : ℚ → ℚ) (a : Args) : ℚ :=
  finalSum f (partitions a) (List.range (partitions a).length)

/-- The thread-cancellation loop of `main` (dlintegrate.c lines 455-461),
entered when `pthread_create` fails for thread `i`:
`for (long long k = i; k >= 0; k--) { pthread_cancel(threads[i]); }`.
Returns the list of thread indices passed to `pthread_cancel`, in call
order — note the loop body uses `threads[i]`, not `threads[k]`. -/
def cancel_loop (i : ℕ) : List ℕ :=
  ((List.range (i + 1)).reverse).map fun _k => i

/-- Observable outcome of one `main` run: process exit code, and the
value printed to standard output if any. -/
structure RunOutput where
  exitCode : ℤ
  printed : Option ℚ

/-- Function `main` of dlintegrate.c (minus the `argc == 1` banner case, which
never reaches `parse_args`): parse, then load the function (`loader`
stands for `dlopen` + `dlsym`; `none` = failure, reported as
`PE_DLERR`), then dispatch all workers and print the sum.  A
`parse_args` error exits through `err_handler` before any loading or
thread activity, printing no result. -/
def runMain (inp : CmdInput) (loader : Option (ℚ → ℚ)) : RunOutput :=
  match parse_args inp with
  | Except.error e => { exitCode := error_retcodes e, printed := none }
  | Except.ok a =>
    match loader with
    | none => { exitCode := error_retcodes Error.PE_DLERR, printed := none }
    | some f => { exitCode := EXIT_SUCCESS, printed := some (dispatch f a) }


/-! ## Helper lemmas -/

/-- Shared termination measure step for the worker-loop recursions. -/
theorem ceil_measure_decr {s e st : ℚ} (h1 : s < e) (h2 : 0 < st) :
    (⌈(e - (s + st)) / st⌉).toNat < (⌈(e - s) / st⌉).toNat := by
  have hst : st ≠ 0 := ne_of_gt h2
  have h3 : (e - (s + st)) / st = (e - s) / st - 1 := by
    field_simp
    ring
  have h5 : 0 < ⌈(e - s) / st⌉ := Int.ceil_pos.mpr (div_pos (by linarith) h2)
  rw [h3, Int.ceil_sub_one]
  omega

/-- The worker loop computes the left-rectangle sum over the sample
sequence of the spec. -/
theorem worker_loop_eq_spec_sum (f : ℚ → ℚ) (s e st : ℚ) :
    worker_loop f s e st = ((specSamplePoints s e st).map (fun x => f x * st)).sum := by
  by_cases h : s < e ∧ 0 < st
  · rw [worker_loop.eq_def, specSamplePoints.eq_def, dif_pos h, dif_pos h]
    simp only [List.map_cons, List.sum_cons]
    rw [worker_loop_eq_spec_sum f (s + st) e st]
  · rw [worker_loop.eq_def, specSamplePoints.eq_def, dif_neg h, dif_neg h]
    simp
termination_by (⌈(e - s) / st⌉).toNat
decreasing_by exact ceil_measure_decr h.1 h.2

/-- Closed form of the loop iteration count. -/
theorem nEvals_eq_ceil (s e st : ℚ) (h : 0 < st) :
    nEvals s e st = (⌈(e - s) / st⌉).toNat := by
  by_cases h1 : s < e
  · rw [nEvals.eq_def, dif_pos ⟨h1, h⟩, nEvals_eq_ceil (s + st) e st h]
    have hst : st ≠ 0 := ne_of_gt h
    have h3 : (e - (s + st)) / st = (e - s) / st - 1 := by
      field_simp
      ring
    have h5 : 0 < ⌈(e - s) / st⌉ := Int.ceil_pos.mpr (div_pos (by linarith) h)
    rw [h3, Int.ceil_sub_one]
    omega
  · rw [nEvals.eq_def, dif_neg (by tauto)]
    have hq : (e - s) / st ≤ 0 := by
      apply div_nonpos_of_nonpos_of_nonneg
      · linarith
      · exact h.le
    have h6 : ⌈(e - s) / st⌉ ≤ 0 := by
      rw [Int.ceil_le]
      exact_mod_cast hq
    omega
termination_by (⌈(e - s) / st⌉).toNat
decreasing_by exact ceil_measure_decr h1 h

/-- A fold of single-slot writes: slot `i` holds `w i` as soon as `i`
appears in the write order, and its initial value otherwise. -/
theorem writes_apply (w : ℕ → ℚ) :
    ∀ (order : List ℕ) (init : ℕ → ℚ) (i : ℕ),
      List.foldl (fun res j => Function.update res j (w j)) init order i
        = if i ∈ order then w i else init i := by
  intro order
  induction order with
  | nil => intro init i; simp
  | cons a t ih =>
    intro init i
    simp only [List.foldl_cons, ih, List.mem_cons, Function.update_apply]
    by_cases h1 : i ∈ t
    · simp [h1]
    · by_cases h2 : i = a
      · subst h2
        simp [h1]
      · simp [h1, h2]

/-- Each result slot of a completed run holds its own worker's result. -/
theorem runResults_apply (f : ℚ → ℚ) (parts : List ThreadArgs) (order : List ℕ) (i : ℕ) :
    runResults f parts order i
      = if i ∈ order then integrate_worker f (parts.getD i ⟨0, 0, 0⟩) else 0 := by
  unfold runResults
  rw [writes_apply]

/-- Congruence for the aggregation fold. -/
theorem foldl_add_congr (r1 r2 : ℕ → ℚ) :
    ∀ (l : List ℕ) (c : ℚ), (∀ i ∈ l, r1 i = r2 i) →
      List.foldl (fun sum i => sum + r1 i) c l = List.foldl (fun sum i => sum + r2 i) c l := by
  intro l
  induction l with
  | nil => intro c _; rfl
  | cons a t ih =>
    intro c h
    simp only [List.foldl_cons]
    rw [h a (by simp)]
    exact ih _ (fun i hi => h i (by simp [hi]))

/-- Sum of a map that is constant on the list. -/
theorem sum_map_eq_card_mul (g : ℕ → ℕ) (c : ℕ) :
    ∀ l : List ℕ, (∀ i ∈ l, g i = c) → (l.map g).sum = l.length * c := by
  intro l
  induction l with
  | nil => intro _; simp
  | cons a t ih =>
    intro h
    simp only [List.map_cons, List.sum_cons, List.length_cons]
    rw [h a (by simp), ih (fun i hi => h i (by simp [hi]))]
    ring


/-! ## Claim theorems -/

/-- C1 (code_bug evaluation): for the validated request start = 1, end = 3,
nsteps = 100, nthreads = 1, `main` builds the single partition
`[0, 2)` with step 1/50 — its sub-interval start is `part * i = 0`, not
`args.start + part * i = 1`, so the partitions do not span
`[start, end) = [1, 3)` as the claim requires. -/
theorem c1_partition_omits_start :
    partitions (mkArgs 1 3 100 1) = [{ start := 0, end_ := 2, step := 1 / 50 }]
    ∧ (partitions (mkArgs 1 3 100 1)).map ThreadArgs.start ≠ [(mkArgs 1 3 100 1).start] := by
  constructor
  · simp only [partitions, mkArgs, Nat.cast_one, Int.toNat_one]
    rw [show List.range 1 = [0] from rfl]
    simp only [List.map_cons, List.map_nil]
    norm_num
  · simp only [partitions, mkArgs, Nat.cast_one, Int.toNat_one]
    rw [show List.range 1 = [0] from rfl]
    simp only [List.map_cons, List.map_nil]
    norm_num

/-- C2 (code_bug evaluation): when `pthread_create` fails for thread
i = 1 (the second worker), the cancellation loop calls `pthread_cancel`
twice on index 1 — the thread that was never created — and never on
index 0, the already-launched worker the claim says must be cancelled.
The error report itself does use `PE_THREAD` with exit code `EX_OSERR`. -/
theorem c2_cancel_targets_failed_thread :
    cancel_loop 1 = [1, 1]
    ∧ 0 ∉ cancel_loop 1
    ∧ error_retcodes Error.PE_THREAD = EX_OSERR := by
  refine ⟨rfl, ?_, rfl⟩
  decide

/-- C7: the exit-code table maps every usage error to `EX_USAGE`, the
data error to `EX_DATAERR`, both resource errors to `EX_OSERR`, the
dynamic-loader error to `EX_SOFTWARE`, and success to 0; the four error
categories are pairwise distinct and non-zero. -/
theorem c7_exit_code_table :
    error_retcodes Error.PE_NOARGS = EX_USAGE
    ∧ error_retcodes Error.PE_WRONGARG = EX_USAGE
    ∧ error_retcodes Error.PE_NENARGS = EX_USAGE
    ∧ error_retcodes Error.PE_TMARGS = EX_USAGE
    ∧ error_retcodes Error.PE_CVGERR = EX_DATAERR
    ∧ error_retcodes Error.PE_MALLOC = EX_OSERR
    ∧ error_retcodes Error.PE_THREAD = EX_OSERR
    ∧ error_retcodes Error.PE_DLERR = EX_SOFTWARE
    ∧ error_retcodes Error.PE_OK = 0
    ∧ (EX_USAGE ≠ 0 ∧ EX_DATAERR ≠ 0 ∧ EX_OSERR ≠ 0 ∧ EX_SOFTWARE ≠ 0)
    ∧ (EX_USAGE ≠ EX_DATAERR ∧ EX_USAGE ≠ EX_OSERR ∧ EX_USAGE ≠ EX_SOFTWARE
       ∧ EX_DATAERR ≠ EX_OSERR ∧ EX_DATAERR ≠ EX_SOFTWARE ∧ EX_OSERR ≠ EX_SOFTWARE) := by
  decide

/-- Sanity: a request with `-t` and `-n` omitted, `-F f` and interval
`[0, 1]` parses successfully with the default step and thread counts
(shows the hypotheses of the defaults theorem are satisfiable). -/
theorem parse_args_ok_example :
    parse_args { tOpt := none, nOpt := none, funcname := some "f",
                 positionals := [{ matched := 1, value := 0, finite := true },
                                 { matched := 1, value := 1, finite := true }],
                 verbose := false, nprocs := 1 }
      = Except.ok { nsteps := 10000000, nthreads := 1, start := 0, end_ := 1,
                    funcname := some "f", isverbose := false } := by
  unfold parse_args
  norm_num [ld_conv, DEFAULTS, EPSILON]
  exact fun h => Option.noConfusion h


/-- The `-t` handler succeeds exactly on a clean finite number whose
truncation is non-negative. -/
theorem handle_t_ok_of (u : ScanResult) (h1 : ld_conv u = true) (h2 : 0 ≤ ll_trunc u.value) :
    handle_t u = Except.ok (ll_trunc u.value) := by
  rw [handle_t, if_neg]
  rintro (hc | hc)
  · rw [h1] at hc
    exact Bool.noConfusion hc
  · omega

/-- The `-n` handler succeeds exactly on a clean finite number whose
truncation is positive. -/
theorem handle_n_ok_of (u : ScanResult) (h1 : ld_conv u = true) (h2 : 0 < ll_trunc u.value) :
    handle_n u = Except.ok (ll_trunc u.value) := by
  rw [handle_n, if_neg]
  rintro (hc | hc)
  · rw [h1] at hc
    exact Bool.noConfusion hc
  · omega

/-- Evaluation of `parse_args` after both option handlers have produced values `kt`
(for `-t`) and `kn` (for `-n`): only the positional checks remain. -/
theorem parse_args_stage2 (t n : Option ScanResult) (fn : Option String)
    (pos : List ScanResult) (v : Bool) (np : ℤ) (kt kn : ℤ)
    (hkt : (match t with
            | none => Except.ok DEFAULTS.nthreads
            | some s => handle_t s) = Except.ok kt)
    (hkn : (match n with
            | none => Except.ok DEFAULTS.nsteps
            | some s => handle_n s) = Except.ok kn) :
    parse_args ⟨t, n, fn, pos, v, np⟩ =
      if fn = none ∨ pos.length < 2 then Except.error Error.PE_NENARGS
      else if 2 < pos.length then Except.error Error.PE_TMARGS
      else
        match pos with
        | s1 :: s2 :: _ =>
          if ld_conv s1 = false ∨ ld_conv s2 = false then Except.error Error.PE_WRONGARG
          else if s2.value - s1.value ≤ EPSILON then Except.error Error.PE_CVGERR
          else Except.ok { nsteps := kn, nthreads := if kt = 0 then np else kt,
                           start := s1.value, end_ := s2.value,
                           funcname := fn, isverbose := v }
        | _ => Except.error Error.PE_NENARGS := by
  simp only [parse_args, hkt, hkn]

/-- Existence form of a successful `-t` stage under the hypotheses the
claims use. -/
theorem tOpt_stage_ok (t : Option ScanResult)
    (ht : ∀ u, t = some u → ld_conv u = true ∧ 0 ≤ ll_trunc u.value) :
    ∃ kt, (match t with
           | none => Except.ok DEFAULTS.nthreads
           | some s => handle_t s) = Except.ok kt := by
  cases t with
  | none => exact ⟨DEFAULTS.nthreads, rfl⟩
  | some u =>
    obtain ⟨h1, h2⟩ := ht u rfl
    exact ⟨ll_trunc u.value, handle_t_ok_of u h1 h2⟩

/-- Existence form of a successful `-n` stage under the hypotheses the
claims use. -/
theorem nOpt_stage_ok (n : Option ScanResult)
    (hn : ∀ u, n = some u → ld_conv u = true ∧ 0 < ll_trunc u.value) :
    ∃ kn, (match n with
           | none => Except.ok DEFAULTS.nsteps
           | some s => handle_n s) = Except.ok kn := by
  cases n with
  | none => exact ⟨DEFAULTS.nsteps, rfl⟩
  | some u =>
    obtain ⟨h1, h2⟩ := hn u rfl
    exact ⟨ll_trunc u.value, handle_n_ok_of u h1 h2⟩

/-- C9: when the `-F` option is absent (`funcname = none`) and the
`-t`/`-n` options, if present, are well-formed, `parse_args` rejects the
request as `PE_NENARGS` ("Not enough arguments"), whose exit code is
`EX_USAGE` — whatever the positional arguments are — and `main` exits
with `EX_USAGE` printing no result, whichever loader outcome would have
followed (so no module is loaded and no integration runs). -/
theorem c9_missing_funcname_usage_error (t n : Option ScanResult)
    (pos : List ScanResult) (v : Bool) (np : ℤ)
    (ht : ∀ u, t = some u → ld_conv u = true ∧ 0 ≤ ll_trunc u.value)
    (hn : ∀ u, n = some u → ld_conv u = true ∧ 0 < ll_trunc u.value) :
    parse_args ⟨t, n, none, pos, v, np⟩ = Except.error Error.PE_NENARGS
    ∧ error_retcodes Error.PE_NENARGS = EX_USAGE
    ∧ ∀ loader, runMain ⟨t, n, none, pos, v, np⟩ loader = ⟨EX_USAGE, none⟩ := by
  obtain ⟨kt, hkt⟩ := tOpt_stage_ok t ht
  obtain ⟨kn, hkn⟩ := nOpt_stage_ok n hn
  have hmain : parse_args ⟨t, n, none, pos, v, np⟩ = Except.error Error.PE_NENARGS := by
    rw [parse_args_stage2 t n none pos v np kt kn hkt hkn, if_pos (Or.inl rfl)]
  refine ⟨hmain, rfl, fun loader => ?_⟩
  rw [runMain, hmain]
  rfl

/-- C9 witness: with no options at all and two well-formed positionals
`0` and `1`, the missing `-F` is rejected as `PE_NENARGS`/`EX_USAGE`
and the run prints nothing. -/
theorem c9_witness :
    parse_args ⟨none, none, none,
                [{ matched := 1, value := 0, finite := true },
                 { matched := 1, value := 1, finite := true }], false, 1⟩
        = Except.error Error.PE_NENARGS
    ∧ runMain ⟨none, none, none,
               [{ matched := 1, value := 0, finite := true },
                { matched := 1, value := 1, finite := true }], false, 1⟩ none
        = ⟨EX_USAGE, none⟩ :=
  ⟨(c9_missing_funcname_usage_error none none _ false 1
      (fun _ hu => Option.noConfusion hu) (fun _ hu => Option.noConfusion hu)).1,
   (c9_missing_funcname_usage_error none none _ false 1
      (fun _ hu => Option.noConfusion hu) (fun _ hu => Option.noConfusion hu)).2.2 none⟩

/-- C10: with `-t` and `-n` omitted, the built-in defaults apply:
`DEFAULTS` is 10 000 000 steps and 1 thread, and any successfully parsed
request carries exactly those values (`nthreads = 1 ≠ 0`, so no
auto-detection replaces it). -/
theorem c10_defaults (t n : Option ScanResult) (fn : Option String)
    (pos : List ScanResult) (v : Bool) (np : ℤ)
    (ht : t = none) (hn : n = none) :
    DEFAULTS.nsteps = 10000000
    ∧ DEFAULTS.nthreads = 1
    ∧ ∀ a : Args, parse_args ⟨t, n, fn, pos, v, np⟩ = Except.ok a →
        a.nsteps = 10000000 ∧ a.nthreads = 1 := by
  subst ht
  subst hn
  refine ⟨rfl, rfl, fun a hok => ?_⟩
  rw [parse_args_stage2 none none fn pos v np DEFAULTS.nthreads DEFAULTS.nsteps rfl rfl]
    at hok
  split at hok
  · exact absurd hok (by simp)
  · split at hok
    · exact absurd hok (by simp)
    · split at hok
      · split at hok
        · exact absurd hok (by simp)
        · split at hok
          · exact absurd hok (by simp)
          · rw [Except.ok.injEq] at hok
            rw [← hok]
            exact ⟨rfl, rfl⟩
      · exact absurd hok (by simp)

/-- C10 witness: the defaults are 10 000 000 steps and 1 thread (the
satisfiability of a successful parse with them is
`parse_args_ok_example`). -/
theorem c10_witness : DEFAULTS.nsteps = 10000000 ∧ DEFAULTS.nthreads = 1 :=
  ⟨(c10_defaults none none (some "f") [] false 1 rfl rfl).1,
   (c10_defaults none none (some "f") [] false 1 rfl rfl).2.1⟩


/-- C3 counterexample: the interval `[0, 2⁻²⁵]` has width strictly above
`DBL_EPSILON = 2⁻⁵²` (the machine epsilon of `double`, the computation
type), so by the claim it should be accepted — yet the code rejects it
as `PE_CVGERR`, because the validation threshold is `FLT_EPSILON = 2⁻²³`. -/
theorem c3_double_epsilon_refuted :
    parse_args ⟨none, none, some "f",
                [{ matched := 1, value := 0, finite := true },
                 { matched := 1, value := 1 / 2 ^ 25, finite := true }], false, 1⟩
        = Except.error Error.PE_CVGERR
    ∧ ¬ ((1 : ℚ) / 2 ^ 25 - 0 ≤ DBL_EPSILON) := by
  constructor
  · rw [parse_args_stage2 none none (some "f") _ false 1
        DEFAULTS.nthreads DEFAULTS.nsteps rfl rfl]
    norm_num [ld_conv, EPSILON]
    exact fun h => Option.noConfusion h
  · norm_num [DBL_EPSILON]

/-- C3 amended: a pair of well-formed positional arguments `start`, `end`
is rejected as the data error `PE_CVGERR` (exit code `EX_DATAERR`),
during validation and before any loading or thread launch, exactly when
`end - start` is at or below `EPSILON = FLT_EPSILON = 2⁻²³` — the
machine epsilon of `float`, not of `double`, the real type the
computation actually uses.  In particular `start = end` is rejected. -/
theorem c3_flt_epsilon_gate (t n : Option ScanResult) (fn : String)
    (s1 s2 : ScanResult) (v : Bool) (np : ℤ)
    (ht : ∀ u, t = some u → ld_conv u = true ∧ 0 ≤ ll_trunc u.value)
    (hn : ∀ u, n = some u → ld_conv u = true ∧ 0 < ll_trunc u.value)
    (h1 : ld_conv s1 = true) (h2 : ld_conv s2 = true) :
    (parse_args ⟨t, n, some fn, [s1, s2], v, np⟩ = Except.error Error.PE_CVGERR
      ↔ s2.value - s1.value ≤ EPSILON)
    ∧ EPSILON = 1 / 2 ^ 23
    ∧ error_retcodes Error.PE_CVGERR = EX_DATAERR
    ∧ (s2.value - s1.value ≤ EPSILON →
        ∀ loader, runMain ⟨t, n, some fn, [s1, s2], v, np⟩ loader
          = ⟨EX_DATAERR, none⟩) := by
  obtain ⟨kt, hkt⟩ := tOpt_stage_ok t ht
  obtain ⟨kn, hkn⟩ := nOpt_stage_ok n hn
  have hstage := parse_args_stage2 t n (some fn) [s1, s2] v np kt kn hkt hkn
  rw [if_neg (by simp), if_neg (by simp)] at hstage
  simp only [h1, h2] at hstage
  rw [if_neg (by simp)] at hstage
  constructor
  · rw [hstage]
    by_cases hc : s2.value - s1.value ≤ EPSILON
    · simp [hc]
    · simp [hc]
  refine ⟨rfl, rfl, fun hc loader => ?_⟩
  rw [runMain, hstage, if_pos hc]
  rfl

/-- C3 amended witness: a request with `start = end = 0` (well-formed
positionals) is rejected as `PE_CVGERR` and the run exits with
`EX_DATAERR` printing nothing. -/
theorem c3_flt_epsilon_gate_witness :
    (parse_args ⟨none, none, some "f",
                 [{ matched := 1, value := 0, finite := true },
                  { matched := 1, value := 0, finite := true }], false, 1⟩
        = Except.error Error.PE_CVGERR
      ↔ (0 : ℚ) - 0 ≤ EPSILON)
    ∧ runMain ⟨none, none, some "f",
               [{ matched := 1, value := 0, finite := true },
                { matched := 1, value := 0, finite := true }], false, 1⟩ none
        = ⟨EX_DATAERR, none⟩ := by
  have h := c3_flt_epsilon_gate none none "f"
    { matched := 1, value := 0, finite := true }
    { matched := 1, value := 0, finite := true } false 1
    (fun _ hu => Option.noConfusion hu) (fun _ hu => Option.noConfusion hu) rfl rfl
  exact ⟨h.1,
    h.2.2.2 (le_trans (sub_nonpos.mpr le_rfl)
      (div_nonneg zero_le_one (pow_nonneg zero_le_two 23))) none⟩

/-- C8: the `-t` and `-n` handlers accept exactly the clean (`matched = 1`),
finite values whose truncation toward zero (`ll_trunc`) is non-negative
(resp. positive), storing the truncated value — fractional values are not
rejected; `2.9` truncates to `2`, and a request with `-t 2.9 -n 2.9`
parses to 2 threads and 2 steps. -/
theorem c8_option_truncation :
    (∀ s : ScanResult,
        handle_t s = if s.matched = 1 ∧ s.finite = true ∧ 0 ≤ ll_trunc s.value
                     then Except.ok (ll_trunc s.value)
                     else Except.error Error.PE_WRONGARG)
    ∧ (∀ s : ScanResult,
        handle_n s = if s.matched = 1 ∧ s.finite = true ∧ 0 < ll_trunc s.value
                     then Except.ok (ll_trunc s.value)
                     else Except.error Error.PE_WRONGARG)
    ∧ ll_trunc (29 / 10 : ℚ) = 2
    ∧ (∃ a : Args,
        parse_args ⟨some { matched := 1, value := 29 / 10, finite := true },
                    some { matched := 1, value := 29 / 10, finite := true },
                    some "f",
                    [{ matched := 1, value := 0, finite := true },
                     { matched := 1, value := 1, finite := true }], false, 4⟩
          = Except.ok a
        ∧ a.nthreads = 2 ∧ a.nsteps = 2) := by
  have htr : ll_trunc (29 / 10 : ℚ) = 2 := by
    rw [ll_trunc, if_neg (by norm_num)]
    norm_num [Int.floor_eq_iff]
  refine ⟨?_, ?_, htr, ?_⟩
  · intro s
    by_cases hc : s.matched = 1 ∧ s.finite = true ∧ 0 ≤ ll_trunc s.value
    · rw [if_pos hc, handle_t, if_neg]
      rintro (h | h)
      · simp [ld_conv, hc.1, hc.2.1] at h
      · omega
    · rw [if_neg hc, handle_t, if_pos]
      push_neg at hc
      by_cases hm : s.matched = 1
      · by_cases hf : s.finite = true
        · exact Or.inr (hc hm hf)
        · refine Or.inl ?_
          have hf2 : s.finite = false := by simpa using hf
          simp [ld_conv, hf2]
      · exact Or.inl (by simp [ld_conv, hm])
  · intro s
    by_cases hc : s.matched = 1 ∧ s.finite = true ∧ 0 < ll_trunc s.value
    · rw [if_pos hc, handle_n, if_neg]
      rintro (h | h)
      · simp [ld_conv, hc.1, hc.2.1] at h
      · omega
    · rw [if_neg hc, handle_n, if_pos]
      push_neg at hc
      by_cases hm : s.matched = 1
      · by_cases hf : s.finite = true
        · exact Or.inr (hc hm hf)
        · refine Or.inl ?_
          have hf2 : s.finite = false := by simpa using hf
          simp [ld_conv, hf2]
      · exact Or.inl (by simp [ld_conv, hm])
  · have hht : handle_t { matched := 1, value := 29 / 10, finite := true }
        = Except.ok 2 := by
      rw [handle_t_ok_of { matched := 1, value := 29 / 10, finite := true } rfl
          (by show (0 : ℤ) ≤ ll_trunc ((29 : ℚ) / 10); rw [htr]; norm_num)]
      show Except.ok (ll_trunc ((29 : ℚ) / 10)) = Except.ok 2
      rw [htr]
    have hhn : handle_n { matched := 1, value := 29 / 10, finite := true }
        = Except.ok 2 := by
      rw [handle_n_ok_of { matched := 1, value := 29 / 10, finite := true } rfl
          (by show (0 : ℤ) < ll_trunc ((29 : ℚ) / 10); rw [htr]; norm_num)]
      show Except.ok (ll_trunc ((29 : ℚ) / 10)) = Except.ok 2
      rw [htr]
    refine ⟨{ nsteps := 2, nthreads := 2, start := 0, end_ := 1,
              funcname := some "f", isverbose := false }, ?_, rfl, rfl⟩
    rw [parse_args_stage2 _ _ _ _ _ _ 2 2 hht hhn]
    norm_num [ld_conv, EPSILON]
    exact fun h => Option.noConfusion h


/-- C4: on a partition with positive step, the worker's loop returns
`Σ f(x_i) * step` over the sample sequence `x_i = sub-start,
sub-start+step, …` taken while `x_i < sub-end` (each point obtained by
repeated addition of the step), and after the run that single scalar
sits in the worker's dedicated result slot. -/
theorem c4_worker_left_rectangle_sum (f : ℚ → ℚ) (parts : List ThreadArgs) (i : ℕ)
    (hi : i < parts.length) (hstep : 0 < (parts.getD i ⟨0, 0, 0⟩).step) :
    runResults f parts (List.range parts.length) i
        = integrate_worker f (parts.getD i ⟨0, 0, 0⟩)
    ∧ integrate_worker f (parts.getD i ⟨0, 0, 0⟩)
        = ((specSamplePoints (parts.getD i ⟨0, 0, 0⟩).start
              (parts.getD i ⟨0, 0, 0⟩).end_
              (parts.getD i ⟨0, 0, 0⟩).step).map
            (fun x => f x * (parts.getD i ⟨0, 0, 0⟩).step)).sum := by
  have hpos : 0 < (parts.getD i ⟨0, 0, 0⟩).step := hstep
  constructor
  · rw [runResults_apply, if_pos (List.mem_range.mpr hi)]
  · rw [integrate_worker]
    exact worker_loop_eq_spec_sum f _ _ _

/-- C4 witness: the single partition `[0, 1)` with step 1 and `f = id`. -/
theorem c4_witness :
    runResults (fun x => x) [{ start := 0, end_ := 1, step := 1 }]
        (List.range ([({ start := 0, end_ := 1, step := 1 } : ThreadArgs)]).length) 0
      = integrate_worker (fun x => x)
          (([({ start := 0, end_ := 1, step := 1 } : ThreadArgs)]).getD 0 ⟨0, 0, 0⟩)
    ∧ integrate_worker (fun x => x)
          (([({ start := 0, end_ := 1, step := 1 } : ThreadArgs)]).getD 0 ⟨0, 0, 0⟩)
      = ((specSamplePoints
            (([({ start := 0, end_ := 1, step := 1 } : ThreadArgs)]).getD 0 ⟨0, 0, 0⟩).start
            (([({ start := 0, end_ := 1, step := 1 } : ThreadArgs)]).getD 0 ⟨0, 0, 0⟩).end_
            (([({ start := 0, end_ := 1, step := 1 } : ThreadArgs)]).getD 0 ⟨0, 0, 0⟩).step).map
          (fun x =>
            x * (([({ start := 0, end_ := 1, step := 1 } : ThreadArgs)]).getD 0 ⟨0, 0, 0⟩).step)).sum :=
  c4_worker_left_rectangle_sum (fun x => x) [{ start := 0, end_ := 1, step := 1 }] 0
    (by decide) zero_lt_one

/-- C5: the printed total is independent of the order in which the worker
threads complete: for any two completion orders (permutations of the
partition indices), the results array agrees slot by slot and the
dispatcher sums it in fixed partition-index order `0, 1, …, T-1`, so the
whole run is a deterministic function of the request — in particular two
runs of the same request (any `T ≥ 1`, including `T = 1`) print the same
value. -/
theorem c5_completion_order_independent (f : ℚ → ℚ) (parts : List ThreadArgs)
    (o1 o2 : List ℕ)
    (h1 : o1.Perm (List.range parts.length)) (h2 : o2.Perm (List.range parts.length)) :
    finalSum f parts o1 = finalSum f parts o2 := by
  unfold finalSum aggregate
  apply foldl_add_congr
  intro i hi
  rw [runResults_apply, runResults_apply,
      if_pos (h1.mem_iff.mpr hi), if_pos (h2.mem_iff.mpr hi)]

/-- C5 witness: two partitions, the two completion orders. -/
theorem c5_witness :
    finalSum (fun x => x)
        [{ start := 0, end_ := 1, step := 1 }, { start := 1, end_ := 2, step := 1 }] [1, 0]
      = finalSum (fun x => x)
        [{ start := 0, end_ := 1, step := 1 }, { start := 1, end_ := 2, step := 1 }] [0, 1] :=
  c5_completion_order_independent (fun x => x)
    [{ start := 0, end_ := 1, step := 1 }, { start := 1, end_ := 2, step := 1 }]
    [1, 0] [0, 1] (by decide) (by decide)

/-- Closed form of the total evaluation count: with `T ≥ 1` threads each
of the `T` equal partitions runs `⌈S/T⌉` loop iterations, since each
partition has width `part = interval/T` and `part/step = S/T`. -/
theorem totalEvals_closed (s e : ℚ) (S T : ℕ) (hse : s < e) (hS : 1 ≤ S) (hT : 1 ≤ T) :
    totalEvals (mkArgs s e S T) = T * (⌈(S : ℚ) / (T : ℚ)⌉).toNat := by
  have hI : (0 : ℚ) < e - s := sub_pos.mpr hse
  have hI0 : e - s ≠ 0 := ne_of_gt hI
  have hS0 : ((S : ℚ)) ≠ 0 := by
    have : (0 : ℚ) < (S : ℚ) := by exact_mod_cast Nat.lt_of_lt_of_le Nat.zero_lt_one hS
    exact ne_of_gt this
  have hT0 : ((T : ℚ)) ≠ 0 := by
    have : (0 : ℚ) < (T : ℚ) := by exact_mod_cast Nat.lt_of_lt_of_le Nat.zero_lt_one hT
    exact ne_of_gt this
  have hstep : (0 : ℚ) < (e - s) / (S : ℚ) :=
    div_pos hI (lt_of_le_of_ne (by positivity) (Ne.symm hS0))
  unfold totalEvals partitions mkArgs
  simp only [Int.toNat_natCast, Int.cast_natCast, List.map_map]
  rw [sum_map_eq_card_mul _ ((⌈(S : ℚ) / (T : ℚ)⌉).toNat) _ ?_, List.length_range]
  intro i _
  simp only [Function.comp_apply]
  rw [nEvals_eq_ceil _ _ _ hstep]
  congr 2
  rw [show (e - s) / (T : ℚ) * ((i : ℚ) + 1) - (e - s) / (T : ℚ) * (i : ℚ)
        = (e - s) / (T : ℚ) from by ring]
  rw [div_div_div_comm, div_self hI0, one_div, inv_div]


/-- C6: for a fixed interval and step count `S`, the total number of
`func` evaluations across all workers with `T` threads differs from the
single-thread count (which is exactly `S`) by at most `T`: each of the
`T` partitions truncates at most one step at its boundary. -/
theorem c6_eval_count_bound (s e : ℚ) (S T : ℕ) (hse : s < e) (hS : 1 ≤ S) (hT : 1 ≤ T) :
    |(totalEvals (mkArgs s e S T) : ℤ) - (totalEvals (mkArgs s e S 1) : ℤ)| ≤ (T : ℤ) := by
  rw [totalEvals_closed s e S T hse hS hT, totalEvals_closed s e S 1 hse hS le_rfl]
  have h1 : (⌈(S : ℚ) / ((1 : ℕ) : ℚ)⌉).toNat = S := by
    rw [Nat.cast_one, div_one, Int.ceil_natCast, Int.toNat_natCast]
  rw [h1, one_mul]
  have hTq : (0 : ℚ) < (T : ℚ) := by exact_mod_cast Nat.lt_of_lt_of_le Nat.zero_lt_one hT
  have hSq : (0 : ℚ) < (S : ℚ) := by exact_mod_cast Nat.lt_of_lt_of_le Nat.zero_lt_one hS
  set c : ℤ := ⌈(S : ℚ) / (T : ℚ)⌉ with hc
  have hcpos : 0 < c := Int.ceil_pos.mpr (div_pos hSq hTq)
  have hlow : (S : ℚ) ≤ (c : ℚ) * (T : ℚ) := by
    have hle := Int.le_ceil ((S : ℚ) / (T : ℚ))
    calc (S : ℚ) = (S : ℚ) / (T : ℚ) * (T : ℚ) := by field_simp
    _ ≤ (c : ℚ) * (T : ℚ) := mul_le_mul_of_nonneg_right hle hTq.le
  have hup : (c : ℚ) * (T : ℚ) < (S : ℚ) + (T : ℚ) := by
    have hlt := Int.ceil_lt_add_one ((S : ℚ) / (T : ℚ))
    calc (c : ℚ) * (T : ℚ) < ((S : ℚ) / (T : ℚ) + 1) * (T : ℚ) :=
          mul_lt_mul_of_pos_right hlt hTq
    _ = (S : ℚ) + (T : ℚ) := by field_simp
  have hlowZ : (S : ℤ) ≤ c * (T : ℤ) := by exact_mod_cast hlow
  have hupZ : c * (T : ℤ) < (S : ℤ) + (T : ℤ) := by exact_mod_cast hup
  have htn : ((c.toNat : ℤ)) = c := Int.toNat_of_nonneg hcpos.le
  push_cast
  rw [htn, abs_le]
  constructor <;> linarith

/-- C6 witness: interval `[0, 1]`, 10 steps, 3 threads versus 1 thread. -/
theorem c6_witness :
    |(totalEvals (mkArgs 0 1 10 3) : ℤ) - (totalEvals (mkArgs 0 1 10 1) : ℤ)| ≤ (3 : ℕ) :=
  c6_eval_count_bound 0 1 10 3 zero_lt_one (by decide) (by decide)

end Dlintegrate
